import Mathlib

/-!
Shallow embedding of `src/fetch_data.py` (crypto-trend-index data fetcher).

Modelling conventions:
* `datetime.date` / `datetime.datetime` values are represented by `PyDate`
  (year, month, day) while parsing, and by their proleptic-Gregorian ordinal
  (`ℤ`, Python's `date.toordinal`) once they enter aggregation and alignment;
  `date + timedelta(days = k)` becomes integer addition on ordinals.
* Python dicts keyed by dates are represented as `ℤ → Option ℚ` (lookup
  functions) inside the join, and as association lists where the code tests
  dict emptiness.
* Numeric values: trend values are ints (`ℤ`); prices are modelled as `ℚ`.
  Python's `round(x, n)` half-to-even rounding is modelled exactly on `ℚ`
  (the binary-float representation error of CPython floats is not modelled).
* Fallible code returns `Option`; an uncaught exception inside
  `fetch_google_trends`'s `try` block is `none`, which the `except` handler
  turns into the empty result list.
-/

/-- A Python `datetime.date` (the time component of parsed `datetime`s is
always midnight and is dropped by `.date()`, so it is not modelled). -/
structure PyDate where
  year : ℕ
  month : ℕ
  day : ℕ
deriving DecidableEq, Repr

/-- Python `str.strip()` on a list of characters. -/
def pyStrip (s : List Char) : List Char :=
  ((s.dropWhile Char.isWhitespace).reverse.dropWhile Char.isWhitespace).reverse

/-- `re.split(r'[–-]', date_str)[0]`: the text before the first range
separator (en dash or hyphen). -/
def splitFirstSep (s : List Char) : List Char :=
  s.takeWhile (fun c => !(c == '–' || c == '-'))

/-- Lowercased month abbreviations recognised by `strptime`'s `%b`
(`strptime` matches month names case-insensitively). -/
def monthAbbr : List (List Char) :=
  ["jan", "feb", "mar", "apr", "may", "jun",
   "jul", "aug", "sep", "oct", "nov", "dec"].map String.toList

/-- Lowercased full month names recognised by `strptime`'s `%B`. -/
def monthFull : List (List Char) :=
  ["january", "february", "march", "april", "may", "june", "july",
   "august", "september", "october", "november", "december"].map String.toList

/-- Case-insensitive match of a lowercase pattern against the head of the
input; returns the rest of the input on success. -/
def matchCI : List Char → List Char → Option (List Char)
  | [], s => some s
  | _ :: _, [] => none
  | p :: ps, c :: cs => if p = c.toLower then matchCI ps cs else none

/-- Try the month names in order, returning the 1-based month number. -/
def parseMonthIn (names : List (List Char)) (i : ℕ) (s : List Char) :
    Option (ℕ × List Char) :=
  match names with
  | [] => none
  | nm :: rest =>
    match matchCI nm s with
    | some s2 => some (i, s2)
    | none => parseMonthIn rest (i + 1) s

/-- `strptime` `%b` (abbreviated month name). -/
def parse_b (s : List Char) : Option (ℕ × List Char) := parseMonthIn monthAbbr 1 s

/-- `strptime` `%B` (full month name). -/
def parse_B (s : List Char) : Option (ℕ × List Char) := parseMonthIn monthFull 1 s

/-- Numeric value of a decimal digit character. -/
def digitVal (c : Char) : ℕ := c.toNat - '0'.toNat

/-- `strptime` `%d`: the regex alternation `3[01]|[12]\d|0[1-9]|[1-9]`,
tried in that order (so a 2-digit day is preferred over a 1-digit one). -/
def parse_d : List Char → Option (ℕ × List Char)
  | c1 :: c2 :: rest =>
    if c1 = '3' ∧ (c2 = '0' ∨ c2 = '1') then some (30 + digitVal c2, rest)
    else if (c1 = '1' ∨ c1 = '2') ∧ c2.isDigit then
      some (10 * digitVal c1 + digitVal c2, rest)
    else if c1 = '0' ∧ ('1' ≤ c2 ∧ c2 ≤ '9') then some (digitVal c2, rest)
    else if '1' ≤ c1 ∧ c1 ≤ '9' then some (digitVal c1, c2 :: rest)
    else none
  | [c1] => if '1' ≤ c1 ∧ c1 ≤ '9' then some (digitVal c1, []) else none
  | [] => none

/-- `strptime` `%m`: the regex alternation `1[0-2]|0[1-9]|[1-9]`. -/
def parse_m : List Char → Option (ℕ × List Char)
  | c1 :: c2 :: rest =>
    if c1 = '1' ∧ (c2 = '0' ∨ c2 = '1' ∨ c2 = '2') then some (10 + digitVal c2, rest)
    else if c1 = '0' ∧ ('1' ≤ c2 ∧ c2 ≤ '9') then some (digitVal c2, rest)
    else if '1' ≤ c1 ∧ c1 ≤ '9' then some (digitVal c1, c2 :: rest)
    else none
  | [c1] => if '1' ≤ c1 ∧ c1 ≤ '9' then some (digitVal c1, []) else none
  | [] => none

/-- `strptime` `%Y`: exactly four decimal digits. -/
def parse_Y : List Char → Option (ℕ × List Char)
  | a :: b :: c :: d :: rest =>
    if a.isDigit ∧ b.isDigit ∧ c.isDigit ∧ d.isDigit then
      some (1000 * digitVal a + 100 * digitVal b + 10 * digitVal c + digitVal d, rest)
    else none
  | _ => none

/-- A literal whitespace character in a `strptime` format matches one or
more whitespace characters of the input (`\s+`). -/
def parseWs : List Char → Option (List Char)
  | c :: rest => if c.isWhitespace then some (rest.dropWhile Char.isWhitespace) else none
  | [] => none

/-- A literal (non-whitespace) format character matches itself. -/
def parseLit (lit : Char) : List Char → Option (List Char)
  | c :: rest => if c = lit then some rest else none
  | [] => none

/-- Gregorian leap-year rule (as used by `datetime`). -/
def isLeap (y : ℕ) : Bool := y % 4 == 0 && (y % 100 != 0 || y % 400 == 0)

/-- Length of a month in the given year. -/
def daysInMonth (y m : ℕ) : ℕ :=
  match m with
  | 1 => 31 | 2 => if isLeap y then 29 else 28 | 3 => 31 | 4 => 30
  | 5 => 31 | 6 => 30 | 7 => 31 | 8 => 31 | 9 => 30 | 10 => 31
  | 11 => 30 | 12 => 31 | _ => 0

/-- Validation performed by the `datetime(year, month, day)` constructor
after a format's regex has matched (`ValueError` on failure). -/
def mkDate (y m d : ℕ) : Option PyDate :=
  if 1 ≤ y ∧ 1 ≤ m ∧ m ≤ 12 ∧ 1 ≤ d ∧ d ≤ daysInMonth y m then
    some ⟨y, m, d⟩
  else none

/-- `strptime(s, '%b %d, %Y')`, e.g. "Jan 5, 2025". -/
def fmtAbbrCommaYear (s : List Char) : Option PyDate := do
  let (m, s) ← parse_b s
  let s ← parseWs s
  let (d, s) ← parse_d s
  let s ← parseLit ',' s
  let s ← parseWs s
  let (y, s) ← parse_Y s
  if s = [] then mkDate y m d else none

/-- `strptime(s, '%B %d, %Y')`, e.g. "January 5, 2025". -/
def fmtFullCommaYear (s : List Char) : Option PyDate := do
  let (m, s) ← parse_B s
  let s ← parseWs s
  let (d, s) ← parse_d s
  let s ← parseLit ',' s
  let s ← parseWs s
  let (y, s) ← parse_Y s
  if s = [] then mkDate y m d else none

/-- `strptime(s, '%b %d %Y')`, e.g. "Jan 5 2025". -/
def fmtAbbrYear (s : List Char) : Option PyDate := do
  let (m, s) ← parse_b s
  let s ← parseWs s
  let (d, s) ← parse_d s
  let s ← parseWs s
  let (y, s) ← parse_Y s
  if s = [] then mkDate y m d else none

/-- `strptime(s, '%Y-%m-%d')`, e.g. "2025-01-05". -/
def fmtIso (s : List Char) : Option PyDate := do
  let (y, s) ← parse_Y s
  let s ← parseLit '-' s
  let (m, s) ← parse_m s
  let s ← parseLit '-' s
  let (d, s) ← parse_d s
  if s = [] then mkDate y m d else none

/-- `strptime(s, '%b %d')`, e.g. "Jan 5"; the year defaults to 1900. -/
def fmtAbbrNoYear (s : List Char) : Option PyDate := do
  let (m, s) ← parse_b s
  let s ← parseWs s
  let (d, s) ← parse_d s
  if s = [] then mkDate 1900 m d else none

/-- The `for fmt in formats` loop of `parse_trend_date`: the first format
that parses wins, in the declared order. -/
def tryFormats (s : List Char) : Option PyDate :=
  match fmtAbbrCommaYear s with
  | some d => some d
  | none =>
  match fmtFullCommaYear s with
  | some d => some d
  | none =>
  match fmtAbbrYear s with
  | some d => some d
  | none =>
  match fmtIso s with
  | some d => some d
  | none => fmtAbbrNoYear s

/-- `parse_trend_date` (src/fetch_data.py:19-46).  `nowYear` is
`datetime.now().year`, threaded explicitly since Lean has no clock. -/
def parse_trend_date (nowYear : ℕ) (raw : String) : Option PyDate :=
  let s0 := pyStrip raw.toList
  let s1 := if s0.contains '–' || s0.contains '-' then pyStrip (splitFirstSep s0) else s0
  match tryFormats s1 with
  | some d => some (if d.year = 1900 then { d with year := nowYear } else d)
  | none => none

/-- Days before January 1 of year `y` in the proleptic Gregorian calendar
(so `daysBeforeYear 1 = 0`); matches Python's `date.toordinal` arithmetic. -/
def daysBeforeYear (y : ℕ) : ℤ :=
  let n : ℤ := (y : ℤ) - 1
  365 * n + Int.ediv n 4 - Int.ediv n 100 + Int.ediv n 400

/-- Days in year `y` strictly before month `m`. -/
def daysBeforeMonth (y m : ℕ) : ℕ :=
  (List.range (m - 1)).foldl (fun acc i => acc + daysInMonth y (i + 1)) 0

/-- Python `date.toordinal()`: 0001-01-01 is day 1. -/
def PyDate.toOrdinal (dt : PyDate) : ℤ :=
  daysBeforeYear dt.year + (daysBeforeMonth dt.year dt.month : ℤ) + (dt.day : ℤ)

/-- Python `date.fromordinal`: inverse of `toOrdinal` on valid dates
(civil-from-days algorithm; all divisions are floor divisions, as in
Python). Used only to render ordinals back to text. -/
def ofOrdinal (n : ℤ) : PyDate :=
  let z := n + 305
  let era := Int.ediv z 146097
  let doe := z - era * 146097
  let yoe := Int.ediv (doe - Int.ediv doe 1460 + Int.ediv doe 36524 - Int.ediv doe 146096) 365
  let y0 := yoe + era * 400
  let doy := doe - (365 * yoe + Int.ediv yoe 4 - Int.ediv yoe 100)
  let mp := Int.ediv (5 * doy + 2) 153
  let d := doy - Int.ediv (153 * mp + 2) 5 + 1
  let m := mp + (if mp < 10 then 3 else -9)
  let y := if m ≤ 2 then y0 + 1 else y0
  ⟨y.toNat, m.toNat, d.toNat⟩

/-- Zero-pad a number to the given width. -/
def padZero (w : ℕ) (n : ℕ) : String :=
  let s := toString n
  ⟨List.replicate (w - s.length) '0' ++ s.toList⟩

/-- `date.strftime('%Y-%m-%d')` (for the 4-digit years produced by this
pipeline the year is rendered unpadded-equals-padded). -/
def isoOfDate (d : PyDate) : String :=
  padZero 4 d.year ++ "-" ++ padZero 2 d.month ++ "-" ++ padZero 2 d.day

/-- Render an ordinal as canonical ISO text. -/
def isoOfOrdinal (z : ℤ) : String := isoOfDate (ofOrdinal z)

/-- One record appended by `fetch_google_trends`:
`{'date': parsed_date, 'value': int(value) if value else 0}`; the datetime
is represented by its ordinal. -/
structure TrendRecord where
  date : ℤ
  value : ℤ
deriving DecidableEq, Repr

/-- A raw `extracted_value` from the SerpAPI payload: a JSON number or a
string (e.g. the "<1" placeholder). -/
inductive RawValue
  | int (n : ℤ)
  | str (s : String)
deriving DecidableEq, Repr

/-- One entry of `data['interest_over_time']['timeline_data']`: a raw date
string and the `values` array (each element's `extracted_value`). -/
structure TimelineItem where
  date : String
  values : List RawValue
deriving DecidableEq, Repr

/-- Digits of a Python `int(...)` literal body; `none` when empty or not
all digits. -/
def digitsToNat (ds : List Char) : Option ℕ :=
  if ds ≠ [] ∧ ds.all Char.isDigit then
    some (ds.foldl (fun a c => 10 * a + digitVal c) 0)
  else none

/-- Python `int(s)` on a string: strips whitespace, allows a sign, then
requires decimal digits; raises `ValueError` (`none`) otherwise. -/
def pyIntOfString (s : String) : Option ℤ :=
  match pyStrip s.toList with
  | '-' :: ds => (digitsToNat ds).map (fun n => -(n : ℤ))
  | '+' :: ds => (digitsToNat ds).map (fun n => (n : ℤ))
  | ds => (digitsToNat ds).map (fun n => (n : ℤ))

/-- `if isinstance(value, str) and '<' in value: value = 0`
(src/fetch_data.py:75-76). -/
def ltValue (v : RawValue) : RawValue :=
  match v with
  | .str s => if s.toList.contains '<' then .int 0 else .str s
  | .int n => .int n

/-- Python truthiness of the value (`int(value) if value else 0`). -/
def valueTruthy : RawValue → Bool
  | .int n => n != 0
  | .str s => s != ""

/-- Python `int(value)`: identity on ints, string parse otherwise;
`none` models the `ValueError` it can raise. -/
def intOfValue : RawValue → Option ℤ
  | .int n => some n
  | .str s => pyIntOfString s

/-- The value stored for a record: `int(value) if value else 0` after the
"<1" replacement; `none` models an escaping `ValueError`. -/
def recordValue (v : RawValue) : Option ℤ :=
  let v1 := ltValue v
  if valueTruthy v1 then intOfValue v1 else some 0

/-- The `for item in timeline` loop of `fetch_google_trends`
(src/fetch_data.py:68-80): records whose date does not parse or whose
`values` array is empty are skipped; a `ValueError` from `int(...)`
escapes the loop (`none`). -/
def processTimeline (nowYear : ℕ) : List TimelineItem → Option (List TrendRecord)
  | [] => some []
  | item :: rest =>
    match parse_trend_date nowYear item.date with
    | some pd =>
      match item.values with
      | v :: _ =>
        match recordValue v with
        | some n => (processTimeline nowYear rest).map (fun tl => ⟨pd.toOrdinal, n⟩ :: tl)
        | none => none
      | [] => processTimeline nowYear rest
    | none => processTimeline nowYear rest

/-- `fetch_google_trends` after a successful HTTP fetch, given the parsed
timeline (src/fetch_data.py:49-87): the surrounding `try/except` turns any
escaping exception into the empty result. -/
def fetch_google_trends (nowYear : ℕ) (timeline : List TimelineItem) : List TrendRecord :=
  match processTimeline nowYear timeline with
  | some l => l
  | none => []

/-- Round-half-to-even to an integer, the rounding Python's `round` uses
(CPython float representation error is not modelled). -/
def roundHalfEven (x : ℚ) : ℤ :=
  let f := ⌊x⌋
  if x - f < 1 / 2 then f
  else if 1 / 2 < x - f then f + 1
  else if f % 2 = 0 then f else f + 1

/-- Python `round(x, 1)`. -/
def round1 (x : ℚ) : ℚ := (roundHalfEven (10 * x) : ℚ) / 10

/-- Python `round(x, 2)`. -/
def round2 (x : ℚ) : ℚ := (roundHalfEven (100 * x) : ℚ) / 100

/-- `calculate_trend_index` (src/fetch_data.py:120-139) viewed as the
finite map it returns: for each date, the values contributed by the
keyword series (in iteration order) are collected and averaged with
`round(sum/len, 1)`.  The int sum is exact in Python, so the dict value
is `round` of the true rational mean. -/
def calculate_trend_index (all_trends : List (List TrendRecord)) : ℤ → Option ℚ :=
  fun d =>
    if all_trends = [] then none
    else
      let vs := ((all_trends.flatten).filter (fun it => it.date == d)).map TrendRecord.value
      if vs = [] then none
      else some (round1 ((vs.sum : ℚ) / (vs.length : ℚ)))

/-- The inner `for direction in [0, -1, 1]` loop of `find_closest_price`:
for a given offset, probe `target`, then `target - offset`, then
`target + offset`, returning the first price found. -/
def checkDirections (btc : ℤ → Option ℚ) (target : ℤ) (offset : ℕ) : Option ℚ :=
  match btc target with
  | some p => some p
  | none =>
    match btc (target - (offset : ℤ)) with
    | some p => some p
    | none => btc (target + (offset : ℤ))

/-- The outer `for offset in range(max_days + 1)` loop, with `rem` the
number of offsets still to try. -/
def fcpLoop (target : ℤ) (btc : ℤ → Option ℚ) : ℕ → ℕ → Option ℚ
  | _, 0 => none
  | offset, rem + 1 =>
    match checkDirections btc target offset with
    | some p => some p
    | none => fcpLoop target btc (offset + 1) rem

/-- `find_closest_price` (src/fetch_data.py:142-149): nearest Bitcoin
price within `max_days`, scanning offsets 0, 1, …, `max_days` and, at each
offset, the earlier date before the later one. -/
def find_closest_price (target : ℤ) (btc : ℤ → Option ℚ) (max_days : ℕ) : Option ℚ :=
  fcpLoop target btc 0 (max_days + 1)

/-- Keys of the `trend_index` dict: the distinct dates appearing in the
fetched data (order irrelevant, they are sorted next). -/
def trend_keys (all_trends : List (List TrendRecord)) : List ℤ :=
  ((all_trends.flatten).map TrendRecord.date).dedup

/-- `sorted(trend_index.keys())` (src/fetch_data.py:190). -/
def sorted_dates (all_trends : List (List TrendRecord)) : List ℤ :=
  (trend_keys all_trends).insertionSort (· ≤ ·)

/-- One iteration of the alignment loop (src/fetch_data.py:196-201): the
point appended for `date`, or `none` when the iteration appends nothing.
Note `if price:` is a truthiness test, so a 0.0 price is dropped. -/
def alignStep (btc trend : ℤ → Option ℚ) (date : ℤ) : Option (ℤ × ℚ × ℚ) :=
  match find_closest_price date btc 3, trend date with
  | some price, some v => if price ≠ 0 then some (date, round2 price, v) else none
  | _, _ => none

/-- The three parallel `final_*` lists of `main`, fused into one list of
triples (each loop iteration appends to all three lists or to none). -/
def alignPoints (dates : List ℤ) (btc trend : ℤ → Option ℚ) : List (ℤ × ℚ × ℚ) :=
  dates.filterMap (alignStep btc trend)

/-- The assembled output arrays (the `output` dict minus metadata). -/
structure OutputData where
  dates : List String
  btc_prices : List ℚ
  trend_index : List ℚ
deriving DecidableEq, Repr

/-- `main`'s pure core (src/fetch_data.py:152-223), from the fetched
per-keyword trend lists and the Bitcoin price dict (as an association
list keyed by ordinal) to the assembled output; `none` is an aborted run
(any of the three `return`s after an emptiness check). -/
def mainAlign (all_trends : List (List TrendRecord)) (btc : List (ℤ × ℚ)) :
    Option OutputData :=
  if all_trends = [] then none
  else
    let trend := calculate_trend_index all_trends
    if btc = [] then none
    else
      let pts := alignPoints (sorted_dates all_trends) (fun z => btc.lookup z) trend
      if pts = [] then none
      else
        some ⟨pts.map (fun x => isoOfOrdinal x.1),
              pts.map (fun x => x.2.1),
              pts.map (fun x => x.2.2)⟩

/-! Concrete fixtures used by the witness and counterexample theorems. -/

/-- A price series with a single (nonzero) price at date 10. -/
def exBtcA : ℤ → Option ℚ := fun z => if z = 10 then some 5 else none

/-- A trend series with a single score at date 10. -/
def exTrendA : ℤ → Option ℚ := fun z => if z = 10 then some 40 else none

/-- A price series whose only price, at date 10, is exactly 0.0. -/
def exBtcZero : ℤ → Option ℚ := fun z => if z = 10 then some 0 else none

/-- The rational 1/400 = 0.0025, written with explicit fields so that its
truthiness test kernel-reduces. -/
def tinyPrice : ℚ := ⟨1, 400, by decide, Nat.coprime_one_left 400⟩

/-- A price series whose only price, at date 10, is 0.0025. -/
def exBtcTiny : ℤ → Option ℚ := fun z => if z = 10 then some tinyPrice else none

/-- Prices: 0.0 at date 11 (nearest to 10), 7 at date 20. -/
def exBtcB : ℤ → Option ℚ :=
  fun z => if z = 11 then some 0 else if z = 20 then some 7 else none

/-- Scores at dates 10 and 20. -/
def exTrendB : ℤ → Option ℚ :=
  fun z => if z = 10 then some 30 else if z = 20 then some 50 else none

/-- Prices at dates 8 and 12, both at distance 2 from date 10. -/
def exBtcC : ℤ → Option ℚ :=
  fun z => if z = 8 then some 4 else if z = 12 then some 6 else none

/-- Two keyword series sharing date 100. -/
def trendListA : List (List TrendRecord) := [[⟨100, 10⟩, ⟨101, 20⟩], [⟨100, 21⟩]]

/-- The same keyword series in the opposite order. -/
def trendListB : List (List TrendRecord) := [[⟨100, 21⟩], [⟨100, 10⟩, ⟨101, 20⟩]]

/-- A timeline record that parses cleanly. -/
def itemGood : TimelineItem := ⟨"Jan 5, 2025", [.int 42]⟩

/-- A timeline record whose date string parses under no format. -/
def itemBadDate : TimelineItem := ⟨"not a date", [.int 7]⟩

/-- A timeline record whose value string raises `ValueError` in `int()`. -/
def itemBadValue : TimelineItem := ⟨"Jan 6, 2025", [.str "N/A"]⟩

/-- A one-keyword, one-record trends input (2025-01-05, score 40). -/
def allTrends9 : List (List TrendRecord) := [[⟨739256, 40⟩]]

/-- A one-point price input (2025-01-05, price 100). -/
def btc9 : List (ℤ × ℚ) := [(739256, 100)]

/-- The output `mainAlign` assembles from `allTrends9` and `btc9`. -/
def out9 : OutputData := ⟨["2025-01-05"], [100], [40]⟩

example : parse_trend_date 2026 "Jan 5, 2025" = some ⟨2025, 1, 5⟩ := rfl
example : parse_trend_date 2026 "Jan 5 – 11, 2025" = some ⟨2026, 1, 5⟩ := rfl
example : parse_trend_date 2026 "2025-01-05" = none := rfl
example : parse_trend_date 2026 "1/2/2025" = none := rfl
example : parse_trend_date 2026 "January 15, 2025" = some ⟨2025, 1, 15⟩ := rfl
example : parse_trend_date 2026 "Feb 29" = none := rfl
example (y : ℕ) : parse_trend_date y "2025-01-05" = none := rfl
example (y : ℕ) : parse_trend_date y "Jan 5 – 11, 2025" = some ⟨y, 1, 5⟩ := rfl
example : (PyDate.mk 2025 1 5).toOrdinal = 739256 := by decide
example : ofOrdinal 739256 = ⟨2025, 1, 5⟩ := by decide
example : isoOfOrdinal 739256 = "2025-01-05" := by decide
example : fetch_google_trends 2026 [⟨"Jan 5, 2025", [.int 42]⟩] = [⟨739256, 42⟩] := by decide
example : fetch_google_trends 2026 [⟨"Jan 5, 2025", [.int 42]⟩, ⟨"Jan 6, 2025", [.str "N/A"]⟩] = [] := by decide
example : fetch_google_trends 2026 [⟨"Jan 5, 2025", [.str "<1"]⟩] = [⟨739256, 0⟩] := by decide
example : calculate_trend_index [[⟨739256, 10⟩], [⟨739256, 21⟩]] 739256 = some (155 / 10) := by
  norm_num [calculate_trend_index, round1, roundHalfEven]
  exact ⟨by simp, by simp⟩
example : find_closest_price 10 (fun z => if z = 11 then some 5 else none) 3 = some 5 := rfl
example : find_closest_price 10 (fun z => if z = 14 then some 5 else none) 3 = none := rfl
example : mainAlign [[⟨739256, 40⟩]] [(739256, 100)] =
    some ⟨["2025-01-05"], [100], [40]⟩ := by
  have hiso : isoOfOrdinal 739256 = "2025-01-05" := by decide
  have hfcp : find_closest_price 739256 (fun z => List.lookup z [((739256:ℤ), (100:ℚ))]) 3
      = some 100 := rfl
  have hsd : sorted_dates [[⟨739256, 40⟩]] = [739256] := rfl
  have hct : calculate_trend_index [[(⟨739256, 40⟩ : TrendRecord)]] 739256 = some 40 := by
    norm_num [calculate_trend_index, round1, roundHalfEven]
  have hstep : alignStep (fun z => List.lookup z [((739256:ℤ), (100:ℚ))])
      (calculate_trend_index [[(⟨739256, 40⟩ : TrendRecord)]]) 739256
      = some (739256, 100, 40) := by
    rw [alignStep, hfcp, hct]
    norm_num [round2, roundHalfEven]
  simp [mainAlign, alignPoints, hsd, hstep, hiso]

/-! ### Helper lemmas: the nearest-price search -/

theorem checkDirections_eq_none {f : ℤ → Option ℚ} {t : ℤ} {j : ℕ} :
    checkDirections f t j = none ↔
      f t = none ∧ f (t - (j : ℤ)) = none ∧ f (t + (j : ℤ)) = none := by
  rcases h1 : f t with _ | a <;> rcases h2 : f (t - (j : ℤ)) with _ | b <;>
    rcases h3 : f (t + (j : ℤ)) with _ | c <;>
    simp [checkDirections, h1, h2, h3]

theorem checkDirections_eq_some {f : ℤ → Option ℚ} {t : ℤ} {j : ℕ} {p : ℚ}
    (h : checkDirections f t j = some p) :
    f t = some p ∨ (f t = none ∧ f (t - (j : ℤ)) = some p) ∨
      (f t = none ∧ f (t - (j : ℤ)) = none ∧ f (t + (j : ℤ)) = some p) := by
  rcases h1 : f t with _ | a
  · rcases h2 : f (t - (j : ℤ)) with _ | b
    · rcases h3 : f (t + (j : ℤ)) with _ | c
      · simp [checkDirections, h1, h2, h3] at h
      · simp [checkDirections, h1, h2, h3] at h
        subst h; simp
    · simp [checkDirections, h1, h2] at h
      subst h; simp
  · simp [checkDirections, h1] at h
    subst h; simp

theorem fcpLoop_eq_some {t : ℤ} {f : ℤ → Option ℚ} :
    ∀ {rem off : ℕ} {p : ℚ}, fcpLoop t f off rem = some p →
      ∃ j, off ≤ j ∧ j < off + rem ∧ checkDirections f t j = some p ∧
        ∀ k, off ≤ k → k < j → checkDirections f t k = none := by
  intro rem
  induction rem with
  | zero => intro off p h; simp [fcpLoop] at h
  | succ n ih =>
    intro off p h
    rcases hc : checkDirections f t off with _ | q
    · simp only [fcpLoop, hc] at h
      obtain ⟨j, hj1, hj2, hj3, hj4⟩ := ih h
      refine ⟨j, by omega, by omega, hj3, fun k hk1 hk2 => ?_⟩
      rcases Nat.eq_or_lt_of_le hk1 with rfl | hlt
      · exact hc
      · exact hj4 k hlt hk2
    · simp only [fcpLoop, hc, Option.some.injEq] at h
      exact ⟨off, le_refl _, by omega, by rw [hc, h], fun k hk1 hk2 => by omega⟩

theorem fcpLoop_eq_none {t : ℤ} {f : ℤ → Option ℚ} :
    ∀ {rem off : ℕ}, fcpLoop t f off rem = none ↔
      ∀ j, off ≤ j → j < off + rem → checkDirections f t j = none := by
  intro rem
  induction rem with
  | zero =>
    intro off
    constructor
    · intro _ j hj1 hj2; omega
    · intro _; rfl
  | succ n ih =>
    intro off
    constructor
    · intro h j hj1 hj2
      rcases hc : checkDirections f t off with _ | q
      · simp only [fcpLoop, hc] at h
        rcases Nat.eq_or_lt_of_le hj1 with rfl | hlt
        · exact hc
        · exact ih.mp h j hlt (by omega)
      · simp [fcpLoop, hc] at h
    · intro hall
      have hc : checkDirections f t off = none := hall off le_rfl (by omega)
      simp only [fcpLoop, hc]
      exact ih.mpr (fun j h1 h2 => hall j (by omega) (by omega))

theorem fcp_of_exact {t : ℤ} {f : ℤ → Option ℚ} {p : ℚ} (m : ℕ) (h : f t = some p) :
    find_closest_price t f m = some p := by
  simp [find_closest_price, fcpLoop, checkDirections, h]

theorem dist_cases {c t : ℤ} {j : ℕ} (h : |c - t| = (j : ℤ)) :
    c = t - (j : ℤ) ∨ c = t + (j : ℤ) := by
  rcases (abs_eq (Int.natCast_nonneg j)).mp h with h' | h'
  · right; omega
  · left; omega

theorem fcp_eq_none_iff {t : ℤ} {f : ℤ → Option ℚ} {m : ℕ} :
    find_closest_price t f m = none ↔ ∀ c : ℤ, |c - t| ≤ (m : ℤ) → f c = none := by
  rw [find_closest_price, fcpLoop_eq_none]
  constructor
  · intro hall c hc
    have hj : |c - t| = ((c - t).natAbs : ℤ) := Int.abs_eq_natAbs _
    have hjm : (c - t).natAbs ≤ m := by omega
    have hcd := hall (c - t).natAbs (Nat.zero_le _) (by omega)
    rw [checkDirections_eq_none] at hcd
    rcases dist_cases (hj ▸ rfl : |c - t| = (((c - t).natAbs : ℕ) : ℤ)) with h' | h'
    · rw [h']; exact hcd.2.1
    · rw [h']; exact hcd.2.2
  · intro hall j _ hjlt
    rw [checkDirections_eq_none]
    have hj : (j : ℤ) ≤ (m : ℤ) := by exact_mod_cast Nat.lt_succ_iff.mp (by omega)
    refine ⟨hall t (by simp), hall _ ?_, hall _ ?_⟩
    · have : |t - (j : ℤ) - t| = (j : ℤ) := by
        rw [show t - (j : ℤ) - t = -(j : ℤ) by ring, abs_neg, abs_of_nonneg (Int.natCast_nonneg j)]
      omega
    · have : |t + (j : ℤ) - t| = (j : ℤ) := by
        rw [show t + (j : ℤ) - t = (j : ℤ) by ring, abs_of_nonneg (Int.natCast_nonneg j)]
      omega

theorem fcp_sound {t : ℤ} {f : ℤ → Option ℚ} {m : ℕ} {p : ℚ}
    (h : find_closest_price t f m = some p) :
    ∃ c, f c = some p ∧ |c - t| ≤ (m : ℤ) := by
  obtain ⟨j, _, hjlt, hcd, _⟩ := fcpLoop_eq_some h
  have hjm : (j : ℤ) ≤ (m : ℤ) := by exact_mod_cast (by omega : j ≤ m)
  rcases checkDirections_eq_some hcd with h1 | ⟨_, h2⟩ | ⟨_, _, h3⟩
  · exact ⟨t, h1, by simp⟩
  · refine ⟨t - (j : ℤ), h2, ?_⟩
    rw [show t - (j : ℤ) - t = -(j : ℤ) by ring, abs_neg, abs_of_nonneg (Int.natCast_nonneg j)]
    exact hjm
  · refine ⟨t + (j : ℤ), h3, ?_⟩
    rw [show t + (j : ℤ) - t = (j : ℤ) by ring, abs_of_nonneg (Int.natCast_nonneg j)]
    exact hjm

/-! ### Helper lemmas: the alignment loop -/

theorem alignStep_eq_some {btc trend : ℤ → Option ℚ} {d : ℤ} {x : ℤ × ℚ × ℚ}
    (h : alignStep btc trend d = some x) :
    ∃ p v, find_closest_price d btc 3 = some p ∧ trend d = some v ∧ p ≠ 0 ∧
      x = (d, round2 p, v) := by
  rcases h1 : find_closest_price d btc 3 with _ | p <;>
    rcases h2 : trend d with _ | v <;>
    simp [alignStep, h1, h2] at h
  by_cases hp : p = 0
  · simp [hp] at h
  · simp [hp] at h
    exact ⟨p, v, rfl, rfl, hp, h.symm⟩

theorem alignStep_fst {btc trend : ℤ → Option ℚ} {d : ℤ} {x : ℤ × ℚ × ℚ}
    (h : alignStep btc trend d = some x) : x.1 = d := by
  obtain ⟨p, v, _, _, _, hx⟩ := alignStep_eq_some h
  rw [hx]

theorem mem_alignPoints {dates : List ℤ} {btc trend : ℤ → Option ℚ} {x : ℤ × ℚ × ℚ} :
    x ∈ alignPoints dates btc trend ↔
      ∃ d ∈ dates, alignStep btc trend d = some x := by
  simp [alignPoints, List.mem_filterMap]

theorem alignPoints_pairwise {R : ℤ → ℤ → Prop} :
    ∀ {dates : List ℤ} {btc trend : ℤ → Option ℚ}, dates.Pairwise R →
      (alignPoints dates btc trend).Pairwise (fun x y => R x.1 y.1) := by
  intro dates
  induction dates with
  | nil => intro btc trend _; simp [alignPoints]
  | cons d rest ih =>
    intro btc trend h
    rw [alignPoints, List.filterMap_cons]
    rcases hs : alignStep btc trend d with _ | x
    · exact ih h.tail
    · refine List.Pairwise.cons ?_ (ih h.tail)
      intro y hy
      obtain ⟨a, ha, hstep⟩ := mem_alignPoints.mp hy
      rw [alignStep_fst hs, alignStep_fst hstep]
      exact (List.pairwise_cons.mp h).1 a ha

/-! ### Helper lemmas: aggregation -/

theorem perm_flatten {α : Type} :
    ∀ {l₁ l₂ : List (List α)}, l₁.Perm l₂ → l₁.flatten.Perm l₂.flatten := by
  intro l₁ l₂ h
  induction h with
  | nil => exact List.Perm.refl _
  | cons x _ ih => simpa [List.flatten_cons] using ih.append_left x
  | swap x y l =>
    rw [List.flatten_cons, List.flatten_cons, List.flatten_cons, List.flatten_cons,
      ← List.append_assoc, ← List.append_assoc]
    exact List.perm_append_comm.append_right _
  | trans _ _ ih1 ih2 => exact ih1.trans ih2

/-! ### Helper lemmas: sorting of the output dates -/

theorem sorted_dates_pairwise (all_trends : List (List TrendRecord)) :
    (sorted_dates all_trends).Pairwise (· < ·) := by
  have hs : (sorted_dates all_trends).Sorted (· ≤ ·) :=
    List.sorted_insertionSort _ _
  have hnd : (sorted_dates all_trends).Nodup :=
    ((List.perm_insertionSort _ _).nodup_iff).mpr (List.nodup_dedup _)
  exact hs.lt_of_le hnd

/-! ### Helper lemmas: the fetch loop -/

theorem processTimeline_skip {nowYear : ℕ} {item : TimelineItem}
    (h : parse_trend_date nowYear item.date = none) :
    ∀ (front post : List TimelineItem),
      processTimeline nowYear (front ++ item :: post) =
        processTimeline nowYear (front ++ post) := by
  intro front
  induction front with
  | nil => intro post; simp [processTimeline, h]
  | cons a front ih =>
    intro post
    simp only [List.cons_append, processTimeline]
    rcases h1 : parse_trend_date nowYear a.date with _ | pd
    · exact ih post
    · rcases h2 : a.values with _ | ⟨v, vs⟩
      · exact ih post
      · rcases h3 : recordValue v with _ | n
        · simp only [h3]
        · simp only [h3, List.append_eq, ih post]

theorem processTimeline_raise {nowYear : ℕ} {item : TimelineItem} {pd : PyDate}
    {v : RawValue} {vs : List RawValue}
    (hpd : parse_trend_date nowYear item.date = some pd) (hv : item.values = v :: vs)
    (hr : recordValue v = none) :
    ∀ (front post : List TimelineItem),
      processTimeline nowYear (front ++ item :: post) = none := by
  intro front
  induction front with
  | nil => intro post; simp [processTimeline, hpd, hv, hr]
  | cons a front ih =>
    intro post
    simp only [List.cons_append, processTimeline]
    rcases h1 : parse_trend_date nowYear a.date with _ | pd2
    · exact ih post
    · rcases h2 : a.values with _ | ⟨v2, vs2⟩
      · exact ih post
      · rcases h3 : recordValue v2 with _ | n
        · simp only [h3]
        · simp only [h3, List.append_eq, ih post, Option.map_none']

/-! ### Claim theorems -/

/-- Claim C4, counterexample: `parse_trend_date` on "Jan 5 – 11, 2025" does
not return 2025-01-05 — the year before the separator is discarded and the
current processing year is substituted, so when processed in 2026 the
result is 2026-01-05. -/
theorem c4_counterexample :
    parse_trend_date 2026 "Jan 5 – 11, 2025" = some ⟨2026, 1, 5⟩ ∧
      some (PyDate.mk 2026 1 5) ≠ some (PyDate.mk 2025 1 5) :=
  ⟨rfl, by decide⟩

/-- Claim C4, amended: for an input containing a range separator only the
text before the first separator is parsed; "Jan 5 – 11, 2025" parses
successfully to January 5 of the current processing year (2025-01-05
exactly when the run happens in 2025). -/
theorem c4_range_prefix_parsed_with_current_year (nowYear : ℕ) :
    parse_trend_date nowYear "Jan 5 – 11, 2025" = some ⟨nowYear, 1, 5⟩ := rfl

/-- Claim C5: contrary to the claim, `parse_trend_date` fails on every
well-formed ISO `YYYY-MM-DD` input (the range-separator split truncates it
at the first hyphen to a bare year, even though `'%Y-%m-%d'` is in the
format list) and on US `M/D/YYYY` inputs (no slash format is listed). -/
theorem c5_iso_and_us_formats_fail (y : ℕ) :
    parse_trend_date y "2025-01-05" = none ∧ parse_trend_date y "1/2/2025" = none :=
  ⟨rfl, rfl⟩

/-- Claim C7, counterexample: a record whose value string cannot be parsed
by `int()` does not merely lose that record — the raised `ValueError` is
caught by the keyword-level `except`, which discards the whole keyword
series, including the good record before it. -/
theorem c7_counterexample :
    fetch_google_trends 2026 [itemGood] = [⟨739256, 42⟩] ∧
      fetch_google_trends 2026 [itemGood, itemBadValue] = [] ∧
      ([] : List TrendRecord) ≠ [⟨739256, 42⟩] :=
  ⟨by decide, by decide, by decide⟩

/-- Claim C7, amended: a record whose *date* does not parse is skipped with
every other record of the keyword still ingested and no exception raised;
but a record whose *value* string cannot be parsed as an integer aborts the
whole keyword fetch, which returns the empty list (the run itself
continues with the remaining keywords). -/
theorem c7_bad_date_skips_bad_value_aborts (nowYear : ℕ)
    (front post : List TimelineItem) (item : TimelineItem) :
    (parse_trend_date nowYear item.date = none →
      fetch_google_trends nowYear (front ++ item :: post) =
        fetch_google_trends nowYear (front ++ post)) ∧
    (∀ pd v vs, parse_trend_date nowYear item.date = some pd → item.values = v :: vs →
      recordValue v = none →
      fetch_google_trends nowYear (front ++ item :: post) = []) := by
  constructor
  · intro h
    unfold fetch_google_trends
    rw [processTimeline_skip h front post]
  · intro pd v vs hpd hv hr
    unfold fetch_google_trends
    rw [processTimeline_raise hpd hv hr front post]

/-- Claim C7, witness: both parts of the amended claim at concrete inputs:
an unparseable date leaves the surrounding records intact, an unparseable
value empties the keyword. -/
theorem c7_witness :
    fetch_google_trends 2026 ([itemGood] ++ itemBadDate :: []) =
      fetch_google_trends 2026 ([itemGood] ++ []) ∧
    fetch_google_trends 2026 ([itemGood] ++ itemBadValue :: []) = [] :=
  ⟨(c7_bad_date_skips_bad_value_aborts 2026 [itemGood] [] itemBadDate).1 (by decide),
   (c7_bad_date_skips_bad_value_aborts 2026 [itemGood] [] itemBadValue).2
     ⟨2025, 1, 6⟩ (.str "N/A") [] (by decide) rfl (by decide)⟩

/-- Claim C8: a value string containing "<" (e.g. the "<1" placeholder) is
turned into the integer 0 before being stored — the record is kept, it
contributes 0 to aggregation, and no parse failure occurs. -/
theorem c8_lt_placeholder_is_zero (nowYear : ℕ) (ds s : String) (vs : List RawValue)
    (rest : List TimelineItem) (pd : PyDate)
    (hpd : parse_trend_date nowYear ds = some pd)
    (hlt : s.toList.contains '<' = true) :
    recordValue (.str s) = some 0 ∧
      processTimeline nowYear (⟨ds, .str s :: vs⟩ :: rest) =
        (processTimeline nowYear rest).map
          (fun tl => ⟨pd.toOrdinal, 0⟩ :: tl) := by
  have hrv : recordValue (RawValue.str s) = some 0 := by
    have hmem : '<' ∈ s.data := by simpa [String.toList] using hlt
    simp [recordValue, ltValue, hmem, valueTruthy]
  refine ⟨hrv, ?_⟩
  simp only [processTimeline, hpd, hrv]

/-- Claim C8, witness: the "<1" record of a timeline is ingested with
value 0. -/
theorem c8_witness :
    recordValue (.str "<1") = some 0 ∧
      processTimeline 2026 [⟨"Jan 5, 2025", [.str "<1"]⟩] =
        (processTimeline 2026 []).map
          (fun tl => ⟨(PyDate.mk 2025 1 5).toOrdinal, 0⟩ :: tl) :=
  c8_lt_placeholder_is_zero 2026 "Jan 5, 2025" "<1" [] [] ⟨2025, 1, 5⟩ rfl (by decide)

/-- Claim C1, counterexample: a date present in both series is *not*
always emitted, and its value is *not* always unchanged.  With the
secondary value 0.0 at the shared date the point is dropped entirely
(truthiness), and with the value 0.0025 the emitted value is
`round(0.0025, 2) = 0.0`, not the stored value. -/
theorem c1_counterexample :
    (alignPoints [10] exBtcZero exTrendA = [] ∧
      exBtcZero 10 = some 0 ∧ exTrendA 10 = some 40) ∧
    (alignPoints [10] exBtcTiny exTrendA = [(10, round2 tinyPrice, 40)] ∧
      exBtcTiny 10 = some tinyPrice ∧ round2 tinyPrice ≠ tinyPrice) := by
  refine ⟨⟨rfl, rfl, rfl⟩, ⟨rfl, rfl, ?_⟩⟩
  have ht : tinyPrice = 1 / 400 := by
    rw [tinyPrice, Rat.mk'_eq_divInt, Rat.divInt_eq_div]
    norm_num
  rw [ht]
  norm_num [round2, roundHalfEven]

/-- Claim C1, amended: for every date present in both series whose
secondary (price) value is nonzero, `align` emits a point for that date
whose match distance is 0 (the value is looked up at the date itself) and
whose value is the secondary value rounded half-to-even to two decimal
places. -/
theorem c1_exact_match_emitted (dates : List ℤ) (btc trend : ℤ → Option ℚ)
    (d : ℤ) (p v : ℚ) (hd : d ∈ dates) (hp : btc d = some p) (hp0 : p ≠ 0)
    (hv : trend d = some v) :
    (d, round2 p, v) ∈ alignPoints dates btc trend := by
  refine mem_alignPoints.mpr ⟨d, hd, ?_⟩
  rw [alignStep, fcp_of_exact 3 hp, hv]
  simp [hp0]

/-- Claim C1, witness: the shared date 10 with price 5 and score 40 is
emitted. -/
theorem c1_witness : ((10 : ℤ), round2 5, (40 : ℚ)) ∈ alignPoints [10] exBtcA exTrendA :=
  c1_exact_match_emitted [10] exBtcA exTrendA 10 5 40 (by decide) rfl (by decide) rfl

/-- Claim C2: under the code's exclude-unmatched policy, (a) every emitted
point's matched price comes from a secondary date within `toleranceDays = 3`
of the emitted date, (b) a date farther than 3 days from every secondary
date is omitted entirely, and (c) the tolerance gate is boundary-inclusive:
a secondary date at distance exactly 3 (or less) makes the search return a
match. -/
theorem c2_tolerance_gate (dates : List ℤ) (btc trend : ℤ → Option ℚ) (d : ℤ) :
    (∀ x ∈ alignPoints dates btc trend,
        ∃ c p, btc c = some p ∧ x.2.1 = round2 p ∧ |c - x.1| ≤ 3) ∧
    ((∀ c q, btc c = some q → 3 < |c - d|) →
      ∀ x ∈ alignPoints dates btc trend, x.1 ≠ d) ∧
    (∀ c q, btc c = some q → |c - d| ≤ 3 →
      (find_closest_price d btc 3).isSome = true) := by
  refine ⟨?_, ?_, ?_⟩
  · intro x hx
    obtain ⟨a, ha, hstep⟩ := mem_alignPoints.mp hx
    obtain ⟨p, v, hfcp, hv, hp0, hx'⟩ := alignStep_eq_some hstep
    obtain ⟨c, hc, hdist⟩ := fcp_sound hfcp
    refine ⟨c, p, hc, by rw [hx'], ?_⟩
    rw [hx']
    exact_mod_cast hdist
  · intro hfar x hx hxd
    obtain ⟨a, ha, hstep⟩ := mem_alignPoints.mp hx
    obtain ⟨p, v, hfcp, _, _, _⟩ := alignStep_eq_some hstep
    have had : a = d := by rw [← alignStep_fst hstep, hxd]
    have hnone : find_closest_price a btc 3 = none := by
      rw [fcp_eq_none_iff]
      intro c hc
      rcases hcq : btc c with _ | q
      · rfl
      · exact absurd (hfar c q hcq) (by rw [had] at hc; push_cast at hc; omega)
    rw [hnone] at hfcp
    exact Option.noConfusion hfcp
  · intro c q hcq hdist
    rcases hfcp : find_closest_price d btc 3 with _ | p
    · rw [fcp_eq_none_iff] at hfcp
      have := hfcp c (by push_cast; omega)
      rw [this] at hcq
      exact Option.noConfusion hcq
    · rfl

/-- Claim C2, witness: part (a) at the emitted point (10, round2 5, 40);
part (b) shows the emitted date is not 99, whose distance to the only
secondary date exceeds 3; part (c) at a query 13 exactly 3 days from the
secondary date 10 (boundary inclusive). -/
theorem c2_witness :
    (∃ c p, exBtcA c = some p ∧ round2 5 = round2 p ∧ |c - (10 : ℤ)| ≤ 3) ∧
    ((10 : ℤ) ≠ 99) ∧
    (find_closest_price 13 exBtcA 3).isSome = true := by
  have hmem : ((10 : ℤ), round2 5, (40 : ℚ)) ∈ alignPoints [10] exBtcA exTrendA := by
    rw [show alignPoints [10] exBtcA exTrendA = [((10 : ℤ), round2 5, (40 : ℚ))] from rfl]
    exact List.mem_singleton.mpr rfl
  have hfar : ∀ c q, exBtcA c = some q → 3 < |c - (99 : ℤ)| := by
    intro c q h
    by_cases hc : c = 10
    · subst hc; decide
    · simp [exBtcA, hc] at h
  exact ⟨(c2_tolerance_gate [10] exBtcA exTrendA 99).1 _ hmem,
    (c2_tolerance_gate [10] exBtcA exTrendA 99).2.1 hfar _ hmem,
    (c2_tolerance_gate [10] exBtcA exTrendA 13).2.2 10 5 rfl (by decide)⟩

/-- Claim C3: when the query date has no exact match and the search
returns a price, that price sits at a secondary date of minimal absolute
day distance among all secondary dates, and among equidistant candidates
the earlier calendar date is the one chosen (the search probes
`target - offset` before `target + offset`). -/
theorem c3_minimal_distance_earlier_tie (btc : ℤ → Option ℚ) (t : ℤ) (p : ℚ) (m : ℕ)
    (hex : btc t = none) (h : find_closest_price t btc m = some p) :
    ∃ c, btc c = some p ∧ (∀ c' q', btc c' = some q' → |c - t| ≤ |c' - t|) ∧
      (∀ c' q', btc c' = some q' → |c' - t| = |c - t| → c ≤ c') := by
  obtain ⟨j, _, hjlt, hcd, hinv⟩ := fcpLoop_eq_some h
  have hfar : ∀ c' q', btc c' = some q' → (j : ℤ) ≤ |c' - t| := by
    intro c' q' hq'
    by_contra hlt
    push_neg at hlt
    have habs : |c' - t| = (((c' - t).natAbs : ℕ) : ℤ) := Int.abs_eq_natAbs _
    have hk : (c' - t).natAbs < j := by omega
    have hcd0 := hinv (c' - t).natAbs (Nat.zero_le _) hk
    rw [checkDirections_eq_none] at hcd0
    rcases dist_cases habs with h' | h'
    · rw [h', hcd0.2.1] at hq'; exact Option.noConfusion hq'
    · rw [h', hcd0.2.2] at hq'; exact Option.noConfusion hq'
  have habsm : |t - (j : ℤ) - t| = (j : ℤ) := by
    rw [show t - (j : ℤ) - t = -(j : ℤ) by ring, abs_neg,
      abs_of_nonneg (Int.natCast_nonneg j)]
  have habsp : |t + (j : ℤ) - t| = (j : ℤ) := by
    rw [show t + (j : ℤ) - t = (j : ℤ) by ring, abs_of_nonneg (Int.natCast_nonneg j)]
  rcases checkDirections_eq_some hcd with h1 | ⟨_, h2⟩ | ⟨_, hnone, h3⟩
  · rw [hex] at h1; exact Option.noConfusion h1
  · refine ⟨t - (j : ℤ), h2, ?_, ?_⟩
    · intro c' q' hq'
      rw [habsm]; exact hfar c' q' hq'
    · intro c' q' hq' heq
      rw [habsm] at heq
      rcases dist_cases heq with h' | h'
      · rw [h']
      · rw [h']; omega
  · refine ⟨t + (j : ℤ), h3, ?_, ?_⟩
    · intro c' q' hq'
      rw [habsp]; exact hfar c' q' hq'
    · intro c' q' hq' heq
      rw [habsp] at heq
      rcases dist_cases heq with h' | h'
      · rw [h'] at hq'; rw [hnone] at hq'; exact Option.noConfusion hq'
      · rw [h']

/-- Claim C3, witness: query 10 against secondary dates 8 and 12, both at
distance 2 — the search returns the value stored at the earlier date 8. -/
theorem c3_witness :
    ∃ c, exBtcC c = some 4 ∧ (∀ c' q', exBtcC c' = some q' → |c - (10 : ℤ)| ≤ |c' - 10|) ∧
      (∀ c' q', exBtcC c' = some q' → |c' - 10| = |c - 10| → c ≤ c') :=
  c3_minimal_distance_earlier_tie exBtcC 10 4 3 rfl rfl

/-- Claim C10: when the nearest qualifying price is exactly 0.0 the date is
excluded from the output even though a valid match inside the tolerance
window exists — `main` tests the match result for truthiness, and 0.0 is
falsy. -/
theorem c10_zero_price_excluded (dates : List ℤ) (btc trend : ℤ → Option ℚ) (d : ℤ)
    (h : find_closest_price d btc 3 = some 0) :
    ∀ x ∈ alignPoints dates btc trend, x.1 ≠ d := by
  intro x hx hxd
  obtain ⟨a, ha, hstep⟩ := mem_alignPoints.mp hx
  obtain ⟨p, v, hfcp, _, hp0, _⟩ := alignStep_eq_some hstep
  have had : a = d := by rw [← alignStep_fst hstep, hxd]
  rw [had, h] at hfcp
  exact hp0 (Option.some.inj hfcp.symm)

/-- Claim C10, witness: date 10's nearest price (at the in-tolerance date
11) is 0.0, so 10 is dropped while date 20 (price 7) is emitted — the only
emitted date is not 10. -/
theorem c10_witness : ((20 : ℤ)) ≠ 10 := by
  have hmem : ((20 : ℤ), round2 7, (50 : ℚ)) ∈ alignPoints [10, 20] exBtcB exTrendB := by
    rw [show alignPoints [10, 20] exBtcB exTrendB = [((20 : ℤ), round2 7, (50 : ℚ))] from rfl]
    exact List.mem_singleton.mpr rfl
  exact c10_zero_price_excluded [10, 20] exBtcB exTrendB 10 rfl _ hmem

/-- Claim C6: `calculate_trend_index` is insertion-order independent — any
permutation of the keyword series list produces the same per-date map,
because each date's value is `round(sum/len, 1)` of the multiset of values
collected for that date. -/
theorem c6_aggregation_order_independent (a b : List (List TrendRecord))
    (h : a.Perm b) : calculate_trend_index a = calculate_trend_index b := by
  funext d
  by_cases ha : a = []
  · subst ha
    have hb : b = [] := h.symm.eq_nil
    subst hb; rfl
  · have hb : b ≠ [] := fun hbe => ha (by subst hbe; exact h.eq_nil)
    have hperm : ((a.flatten.filter (fun it => it.date == d)).map TrendRecord.value).Perm
        ((b.flatten.filter (fun it => it.date == d)).map TrendRecord.value) :=
      ((perm_flatten h).filter _).map _
    have hlen := hperm.length_eq
    have hsum := hperm.sum_eq
    simp only [calculate_trend_index, if_neg ha, if_neg hb]
    by_cases hv : (a.flatten.filter (fun it => it.date == d)).map TrendRecord.value = []
    · have hv2 : (b.flatten.filter (fun it => it.date == d)).map TrendRecord.value = [] := by
        rw [← List.length_eq_zero, ← hlen, hv]
        rfl
      rw [if_pos hv, if_pos hv2]
    · have hv2 : ¬(b.flatten.filter (fun it => it.date == d)).map TrendRecord.value = [] := by
        intro he
        exact hv (by rw [← List.length_eq_zero, hlen, he]; rfl)
      rw [if_neg hv, if_neg hv2, hsum, hlen]

/-- Claim C6, witness: swapping the two keyword series of `trendListA`
leaves the aggregated map unchanged. -/
theorem c6_witness : calculate_trend_index trendListA = calculate_trend_index trendListB :=
  c6_aggregation_order_independent trendListA trendListB (by decide)

/-- Claim C9: whenever `main` produces output, the three arrays are
parallel (equal length), and the dates array is the ISO rendering of a
strictly increasing (hence duplicate-free) sequence of dates. -/
theorem c9_output_parallel_sorted (all_trends : List (List TrendRecord))
    (btc : List (ℤ × ℚ)) (out : OutputData) (h : mainAlign all_trends btc = some out) :
    out.dates.length = out.btc_prices.length ∧
      out.btc_prices.length = out.trend_index.length ∧
      ∃ ords : List ℤ, out.dates = ords.map isoOfOrdinal ∧ ords.Pairwise (· < ·) := by
  simp only [mainAlign] at h
  by_cases h1 : all_trends = []
  · rw [if_pos h1] at h; exact Option.noConfusion h
  rw [if_neg h1] at h
  by_cases h2 : btc = []
  · rw [if_pos h2] at h; exact Option.noConfusion h
  rw [if_neg h2] at h
  by_cases h3 : alignPoints (sorted_dates all_trends) (fun z => List.lookup z btc)
      (calculate_trend_index all_trends) = []
  · rw [if_pos h3] at h; exact Option.noConfusion h
  rw [if_neg h3] at h
  obtain rfl := (Option.some.inj h).symm
  refine ⟨by simp, by simp, ?_⟩
  refine ⟨(alignPoints (sorted_dates all_trends) (fun z => List.lookup z btc)
      (calculate_trend_index all_trends)).map (fun x => x.1), ?_, ?_⟩
  · simp [List.map_map, Function.comp]
  · exact List.pairwise_map.mpr (alignPoints_pairwise (sorted_dates_pairwise all_trends))

/-- Claim C9, witness: the run on `allTrends9`/`btc9` assembles `out9`,
whose arrays are parallel and whose single date is ISO-rendered. -/
theorem c9_witness : out9.dates.length = out9.btc_prices.length ∧
    out9.btc_prices.length = out9.trend_index.length ∧
    ∃ ords : List ℤ, out9.dates = ords.map isoOfOrdinal ∧ ords.Pairwise (· < ·) := by
  refine c9_output_parallel_sorted allTrends9 btc9 out9 ?_
  have hiso : isoOfOrdinal 739256 = "2025-01-05" := by decide
  have hfcp : find_closest_price 739256 (fun z => List.lookup z btc9) 3 = some 100 := rfl
  have hsd : sorted_dates allTrends9 = [739256] := rfl
  have hct : calculate_trend_index allTrends9 739256 = some 40 := by
    norm_num [calculate_trend_index, allTrends9, round1, roundHalfEven]
  have hstep : alignStep (fun z => List.lookup z btc9)
      (calculate_trend_index allTrends9) 739256 = some (739256, 100, 40) := by
    rw [alignStep, hfcp, hct]
    norm_num [round2, roundHalfEven]
  have hpts : alignPoints (sorted_dates allTrends9) (fun z => List.lookup z btc9)
      (calculate_trend_index allTrends9) = [(739256, 100, 40)] := by
    rw [hsd, alignPoints, List.filterMap_cons, hstep]
    rfl
  simp only [mainAlign, hpts]
  simp [allTrends9, btc9, out9, hiso]
